import Mathlib

/-!
# VMware guest-info metadata provider

A shallow embedding of `pkg/metadata/provider_vmware.go` (package `main`):
the provider's `Probe`, `Extract` and `vmwareGet`, together with the parts of
the Go standard library they call (`strings.TrimSuffix`, `bytes.TrimSuffix`,
`encoding/base64` with `StdEncoding`, `compress/gzip`, `path.Join`).

Conventions.

* A Go `[]byte` and a Go `string` holding data are both `List Byte`; text that
  the program only builds and passes on (command names, arguments, paths) is a
  Lean `String`.
* A Go slice result that may be `nil` is an `Option (List Byte)`, `none` being
  `nil`.
* A Go `error` result is an `Option Error`, `none` being `nil`.
* Everything outside the process (the executable search path, the helper
  binary, the file system) is a `World`; what the program has done to it so
  far is a `State`.  Every answer of the world may depend on that history.
* A Go run-time panic is the `Outcome.panic` result.
* Calls to the logger do not influence control flow and are left out; the
  type assertions evaluated to build their arguments are kept.
-/

namespace Metadata

/-! ## Bytes -/

/-- One octet. -/
abbrev Byte := Fin 256

/-- Go conversion `byte(n)` of an unsigned integer: the low eight bits. -/
def byte (n : Nat) : Byte := ⟨n % 256, Nat.mod_lt n (by decide)⟩

/-- The bytes of an ASCII literal. -/
def str (s : String) : List Byte := s.toList.map (fun c => byte c.toNat)

/-- Go `bytes.TrimSuffix` and `strings.TrimSuffix`: drop `suffix` from the end of
`s` when `s` ends with it, otherwise return `s` unchanged. -/
def trimSuffix (s suffix : List Byte) : List Byte :=
  if suffix.isSuffixOf s then s.take (s.length - suffix.length) else s

/-! ## Errors -/

/-- The error values that can flow through the provider. -/
inductive Error where
  /-- Value of type `*exec.ExitError`: the helper ran and exited unsuccessfully;
  carries the captured standard error. -/
  | exitError (stderr : List Byte)
  /-- Any other error value produced by the operating-system layer
  (`*exec.Error`, `*os.PathError`, an I/O error, ...), identified by its text. -/
  | sys (msg : String)
  /-- Value of type `base64.CorruptInputError`. -/
  | corruptInput
  /-- The value `io.EOF`. -/
  | eof
  /-- The value `io.ErrUnexpectedEOF`. -/
  | unexpectedEOF
  /-- The value `gzip.ErrHeader`. -/
  | gzipHeader
  /-- The value `gzip.ErrChecksum`. -/
  | gzipChecksum
  /-- Value of type `flate.CorruptInputError`. -/
  | flateCorrupt
  /-- The error built by `fmt.Errorf("Unknown encoding %s", string(enc))`. -/
  | unknownEncoding (enc : List Byte)
  /-- The error built by `fmt.Errorf("VMWare: Failed to write metadata: %s", err)`. -/
  | writeMetadata (err : Error)
  deriving DecidableEq, Repr

deriving instance DecidableEq for Except

/-- What a reader delivers when read to its end: the bytes, then either a clean
end of input (`none`, Go `io.EOF`) or the error that stopped it. -/
structure Stream where
  data : List Byte
  err : Option Error
  deriving DecidableEq, Repr

/-! ## `encoding/base64`, `StdEncoding` -/

/-- The 64 characters of the standard alphabet. -/
def encodeStd : List Byte :=
  str "ABCDEFGHIJKLMNOPQRSTUVWXYZabcdefghijklmnopqrstuvwxyz0123456789+/"

/-- The padding character `=`. -/
def padChar : Byte := 61

/-- Alphabet lookup `enc.encode[i]`. -/
def encodeChar (i : Nat) : Byte := encodeStd.getD i 0

/-- The decoding table `enc.decodeMap`: the six-bit value of an alphabet
character, `none` (Go `0xff`) for every other byte. -/
def decodeMap (b : Byte) : Option Nat :=
  let i := encodeStd.indexOf b
  if i < 64 then some i else none

/-- The bytes `\r` and `\n`, which `newlineFilteringReader` removes. -/
def isNewline (b : Byte) : Bool := b == 10 || b == 13

/-- The 24-bit group assembled by `decodeQuantum` from four six-bit values. -/
def quantumVal (x y z t : Nat) : Nat := x <<< 18 ||| y <<< 12 ||| z <<< 6 ||| t

/-- The loop of `Encoding.Decode` over a chunk whose length is a multiple of
four and that holds no newline: every quantum gives three bytes; a quantum
closed by `=` or `==` gives two or one, and must end the chunk (otherwise its
bytes are still delivered, with a corrupt-input error); any other byte outside
the alphabet is a corrupt-input error. -/
def decodeQuanta : List Byte → List Byte × Option Error
  | a :: b :: c :: d :: rest =>
    match decodeMap a, decodeMap b with
    | some x, some y =>
      match decodeMap c with
      | some z =>
        match decodeMap d with
        | some t =>
          let v := quantumVal x y z t
          let r := decodeQuanta rest
          (byte (v >>> 16) :: byte (v >>> 8) :: byte v :: r.1, r.2)
        | none =>
          if d = padChar then
            let v := quantumVal x y z 0
            ([byte (v >>> 16), byte (v >>> 8)],
              if rest.isEmpty then none else some Error.corruptInput)
          else ([], some Error.corruptInput)
      | none =>
        if c = padChar ∧ d = padChar then
          let v := quantumVal x y 0 0
          ([byte (v >>> 16)], if rest.isEmpty then none else some Error.corruptInput)
        else ([], some Error.corruptInput)
    | _, _ => ([], some Error.corruptInput)
  | _ => ([], none)

/-- Reading `base64.NewDecoder(base64.StdEncoding, bytes.NewBuffer(src))` to its
end.  Newlines are filtered out first; the complete four-character groups are
decoded by `decodeQuanta`; one to three characters left over at the end of the
input are an unexpected end of input.  The input is taken as a single chunk:
the decoder's internal read boundaries are not modelled. -/
def base64Decoder (src : List Byte) : Stream :=
  let buf := src.filter (fun b => !isNewline b)
  let nr := buf.length / 4 * 4
  let r := decodeQuanta (buf.take nr)
  match r.2 with
  | some e => ⟨r.1, some e⟩
  | none => if nr < buf.length then ⟨r.1, some Error.unexpectedEOF⟩ else ⟨r.1, none⟩

/-- Go `ioutil.ReadAll` on a reader: the bytes read and the error, `nil` on a clean
end of input. -/
def readAll (r : Stream) : List Byte × Option Error := (r.data, r.err)

/-- Standard padded base64 encoding (RFC 4648 section 4, Go
`base64.StdEncoding.EncodeToString`). -/
def base64Encode : List Byte → List Byte
  | a :: b :: c :: rest =>
    let v := a.val * 65536 + b.val * 256 + c.val
    encodeChar (v / 262144 % 64) :: encodeChar (v / 4096 % 64) ::
      encodeChar (v / 64 % 64) :: encodeChar (v % 64) :: base64Encode rest
  | [a, b] =>
    let v := a.val * 65536 + b.val * 256
    [encodeChar (v / 262144 % 64), encodeChar (v / 4096 % 64), encodeChar (v / 64 % 64), padChar]
  | [a] =>
    let v := a.val * 65536
    [encodeChar (v / 262144 % 64), encodeChar (v / 4096 % 64), padChar, padChar]
  | [] => []

/-! ## `hash/crc32`, IEEE polynomial -/

/-- One bit of the reflected polynomial division. -/
def crc32Step (c : Nat) : Nat :=
  if c % 2 = 1 then (c >>> 1) ^^^ 0xedb88320 else c >>> 1

/-- Entry `i` of `crc32.IEEETable`. -/
def crc32Table (i : Nat) : Nat :=
  crc32Step (crc32Step (crc32Step (crc32Step (crc32Step (crc32Step (crc32Step (crc32Step i)))))))

/-- Go `crc32.Update(crc, crc32.IEEETable, p)`. -/
def crc32Update (crc : Nat) (p : List Byte) : Nat :=
  (p.foldl (fun c v => crc32Table ((c % 256) ^^^ v.val) ^^^ (c >>> 8)) (crc ^^^ 0xffffffff))
    ^^^ 0xffffffff

/-- Go `crc32.ChecksumIEEE`. -/
def checksumIEEE (p : List Byte) : Nat := crc32Update 0 p

/-! ## Reading bytes and bits -/

/-- Go `noEOF`: an end of input in the middle of a structure is unexpected. -/
def noEOF : Error → Error
  | Error.eof => Error.unexpectedEOF
  | e => e

/-- Go `io.ReadFull` of `n` bytes from input `inp` that ends with `term`: the
bytes read and the rest, or the error. -/
def readFull (n : Nat) (inp : List Byte) (term : Option Error) :
    Except Error (List Byte × List Byte) :=
  if n ≤ inp.length then .ok (inp.take n, inp.drop n)
  else
    match term with
    | some e => .error e
    | none => .error (if inp.isEmpty then Error.eof else Error.unexpectedEOF)

/-- Little-endian value of a byte string (`binary.LittleEndian`). -/
def le : List Byte → Nat
  | [] => 0
  | b :: rest => b.val + 256 * le rest

/-- The input of the inflater: the unread bytes and the number of bits of the
first one that are already used (the decompressor's `b`, `nb`). -/
structure BitReader where
  bytes : List Byte
  off : Nat
  deriving DecidableEq, Repr

/-- Number of unread bits. -/
def BitReader.avail (r : BitReader) : Nat := 8 * r.bytes.length - r.off

/-- Next bit, least significant first. -/
def BitReader.readBit (r : BitReader) : Option (Nat × BitReader) :=
  match r.bytes with
  | [] => none
  | b :: rest =>
    some ((b.val >>> r.off) % 2, if r.off < 7 then ⟨b :: rest, r.off + 1⟩ else ⟨rest, 0⟩)

/-- The next `n` bits as a number, first bit least significant. -/
def BitReader.readBits : Nat → BitReader → Option (Nat × BitReader)
  | 0, r => some (0, r)
  | n + 1, r =>
    match r.readBit with
    | none => none
    | some (b, r1) =>
      match BitReader.readBits n r1 with
      | none => none
      | some (v, r2) => some (b + 2 * v, r2)

/-- The unread whole bytes: the rest of a partly used byte is dropped. -/
def BitReader.align (r : BitReader) : List Byte :=
  if r.off = 0 then r.bytes else r.bytes.tail

/-! ## `compress/flate`: inflate -/

/-- A canonical Huffman code, given by the code length of every symbol (zero:
unused), with the least number of bits `huffSym` asks for and the longest code
length. -/
structure HuffmanDecoder where
  lengths : List Nat
  min : Nat
  max : Nat
  deriving DecidableEq, Repr

/-- Number of symbols with code length `n`. -/
def countLen (lengths : List Nat) (n : Nat) : Nat := (lengths.filter (fun l => l = n)).length

/-- Go `huffmanDecoder.init`: `none` when the lengths do not describe a complete
code, the empty code and the one-bit single code excepted. -/
def huffmanInit (lengths : List Nat) : Option HuffmanDecoder :=
  let nz := lengths.filter (fun l => l ≠ 0)
  let max := nz.foldl Nat.max 0
  let min := nz.foldl Nat.min max
  if max = 0 then some ⟨lengths, 0, 0⟩
  else
    let code := (List.range' min (max + 1 - min)).foldl
      (fun code i => code <<< 1 + countLen lengths i) 0
    if code ≠ 1 <<< max ∧ ¬ (code = 1 ∧ max = 1) then none
    else some ⟨lengths, min, max⟩

/-- The symbols of code length `n`, in increasing order. -/
def symbolsOfLen (lengths : List Nat) (n : Nat) : List Nat :=
  (List.range lengths.length).filter (fun s => lengths.getD s 0 = n)

/-- Canonical decoding, one bit at a time: `code` holds the bits read so far
(first bit most significant) and `first` the first code of length `len`. -/
def huffWalk (lengths : List Nat) (eofErr : Error) :
    Nat → Nat → Nat → Nat → BitReader → Except Error (Nat × BitReader)
  | 0, _, _, _, _ => .error Error.flateCorrupt
  | todo + 1, len, code, first, r =>
    match r.readBit with
    | none => .error eofErr
    | some (b, r1) =>
      let code := code + b
      let syms := symbolsOfLen lengths len
      if code < first + syms.length then .ok (syms.getD (code - first) 0, r1)
      else huffWalk lengths eofErr todo (len + 1) (2 * code) (2 * (first + syms.length)) r1

/-- Go `decompressor.huffSym`: the next symbol of the code `h`. -/
def huffSym (h : HuffmanDecoder) (eofErr : Error) (r : BitReader) :
    Except Error (Nat × BitReader) :=
  if r.avail < h.min then .error eofErr
  else huffWalk h.lengths eofErr h.max 1 0 0 r

/-- The fixed literal/length code of RFC 1951 section 3.2.6. -/
def fixedHuffmanDecoder : HuffmanDecoder :=
  ⟨List.replicate 144 8 ++ List.replicate 112 9 ++ List.replicate 24 7 ++ List.replicate 8 8,
    7, 9⟩

/-- Base length and number of extra bits of a length symbol `v > 256`. -/
def lengthCode (v : Nat) : Option (Nat × Nat) :=
  if v < 265 then some (v - (257 - 3), 0)
  else if v < 269 then some (v * 2 - (265 * 2 - 11), 1)
  else if v < 273 then some (v * 4 - (269 * 4 - 19), 2)
  else if v < 277 then some (v * 8 - (273 * 8 - 35), 3)
  else if v < 281 then some (v * 16 - (277 * 16 - 67), 4)
  else if v < 285 then some (v * 32 - (281 * 32 - 131), 5)
  else if v < 286 then some (258, 0)
  else none

/-- Go `bits.Reverse8`. -/
def reverse8 (x : Nat) : Nat :=
  (List.range 8).foldl (fun acc i => acc * 2 + (x >>> i) % 2) 0

/-- The distance of a match: a five-bit code in a fixed block (`hd = none`), a
symbol of the distance code otherwise, then the extra bits. -/
def readDist (hd : Option HuffmanDecoder) (eofErr : Error) (r : BitReader) :
    Except Error (Nat × BitReader) :=
  let d : Except Error (Nat × BitReader) :=
    match hd with
    | none =>
      match r.readBits 5 with
      | none => .error eofErr
      | some (x, r1) => .ok (reverse8 ((x &&& 0x1f) <<< 3), r1)
    | some h => huffSym h eofErr r
  match d with
  | .error e => .error e
  | .ok (dist, r1) =>
    if dist < 4 then .ok (dist + 1, r1)
    else if dist < 30 then
      let nb := (dist - 2) >>> 1
      let extra := (dist &&& 1) <<< nb
      match r1.readBits nb with
      | none => .error eofErr
      | some (x, r2) => .ok (1 <<< (nb + 1) + 1 + (extra ||| x), r2)
    else .error Error.flateCorrupt

/-- Copy `n` bytes starting `dist` bytes back; `hist` is the output so far, last
byte first. -/
def copyHistory : Nat → Nat → List Byte → List Byte
  | 0, _, hist => hist
  | n + 1, dist, hist => copyHistory n dist (hist.getD (dist - 1) 0 :: hist)

/-- Go `decompressor.huffmanBlock`: decode symbols up to the end-of-block
marker.  Every round uses at least one bit, which bounds the recursion. -/
def huffmanBlock (hl : HuffmanDecoder) (hd : Option HuffmanDecoder) (eofErr : Error) :
    Nat → BitReader → List Byte → Except Error (BitReader × List Byte)
  | 0, _, _ => .error Error.flateCorrupt
  | fuel + 1, r, hist =>
    match huffSym hl eofErr r with
    | .error e => .error e
    | .ok (v, r1) =>
      if v < 256 then huffmanBlock hl hd eofErr fuel r1 (byte v :: hist)
      else if v = 256 then .ok (r1, hist)
      else
        match lengthCode v with
        | none => .error Error.flateCorrupt
        | some (length, n) =>
          match r1.readBits n with
          | none => .error eofErr
          | some (x, r2) =>
            match readDist hd eofErr r2 with
            | .error e => .error e
            | .ok (dist, r3) =>
              if dist > Nat.min hist.length 32768 then .error Error.flateCorrupt
              else huffmanBlock hl hd eofErr fuel r3 (copyHistory (length + x) dist hist)

/-- Go `decompressor.dataBlock`: a stored block. -/
def dataBlock (term : Option Error) (r : BitReader) (hist : List Byte) :
    Except Error (BitReader × List Byte) :=
  match readFull 4 r.align term with
  | .error e => .error (noEOF e)
  | .ok (buf, rest) =>
    let n := le (buf.take 2)
    let nn := le (buf.drop 2)
    if nn ≠ 65535 - n then .error Error.flateCorrupt
    else
      match readFull n rest term with
      | .error e => .error (noEOF e)
      | .ok (data, rest1) => .ok (⟨rest1, 0⟩, data.reverse ++ hist)

/-- The order in which the lengths of the code-length code are stored. -/
def codeOrder : List Nat := [16, 17, 18, 0, 8, 7, 9, 6, 10, 5, 11, 4, 12, 3, 13, 2, 14, 1, 15]

/-- The `nclen` three-bit lengths of the code-length code. -/
def readCodeBits (eofErr : Error) : Nat → BitReader → Except Error (List Nat × BitReader)
  | 0, r => .ok ([], r)
  | k + 1, r =>
    match r.readBits 3 with
    | none => .error eofErr
    | some (x, r1) =>
      match readCodeBits eofErr k r1 with
      | .error e => .error e
      | .ok (xs, r2) => .ok (x :: xs, r2)

/-- The `n` code lengths of the literal/length and distance codes, written with
the code-length code `h`; `acc` holds the lengths read so far, last first. -/
def readLengths (h : HuffmanDecoder) (eofErr : Error) (n : Nat) :
    Nat → BitReader → List Nat → Except Error (List Nat × BitReader)
  | 0, r, acc => .ok (acc.reverse, r)
  | fuel + 1, r, acc =>
    if n ≤ acc.length then .ok (acc.reverse, r)
    else
      match huffSym h eofErr r with
      | .error e => .error e
      | .ok (x, r1) =>
        if x < 16 then readLengths h eofErr n fuel r1 (x :: acc)
        else if x = 16 ∧ acc.isEmpty then .error Error.flateCorrupt
        else
          let rep := if x = 18 then 11 else 3
          let nb := if x = 16 then 2 else if x = 17 then 3 else 7
          let b := if x = 16 then acc.headD 0 else 0
          match r1.readBits nb with
          | none => .error eofErr
          | some (y, r2) =>
            if acc.length + (rep + y) > n then .error Error.flateCorrupt
            else readLengths h eofErr n fuel r2 (List.replicate (rep + y) b ++ acc)

/-- Go `decompressor.readHuffman`: the two codes of a dynamic block. -/
def readHuffman (eofErr : Error) (r : BitReader) :
    Except Error (HuffmanDecoder × HuffmanDecoder × BitReader) :=
  match r.readBits 14 with
  | none => .error eofErr
  | some (x, r1) =>
    let nlit := (x &&& 0x1f) + 257
    let ndist := ((x >>> 5) &&& 0x1f) + 1
    let nclen := ((x >>> 10) &&& 0xf) + 4
    if nlit > 286 then .error Error.flateCorrupt
    else if ndist > 30 then .error Error.flateCorrupt
    else
      match readCodeBits eofErr nclen r1 with
      | .error e => .error e
      | .ok (cb, r2) =>
        let codebits := (List.range 19).map
          (fun s => if codeOrder.indexOf s < cb.length then cb.getD (codeOrder.indexOf s) 0 else 0)
        match huffmanInit codebits with
        | none => .error Error.flateCorrupt
        | some h =>
          match readLengths h eofErr (nlit + ndist) (nlit + ndist) r2 [] with
          | .error e => .error e
          | .ok (bits, r3) =>
            match huffmanInit (bits.take nlit), huffmanInit ((bits.drop nlit).take ndist) with
            | some h1, some h2 =>
              let eob := bits.getD 256 0
              .ok (if h1.min < eob then { h1 with min := eob } else h1, h2, r3)
            | _, _ => .error Error.flateCorrupt

/-- Go `decompressor.nextBlock`, repeated up to the final block: the bytes after
the deflate stream and the output, last byte first.  Every block uses at least
three bits, which bounds the recursion. -/
def inflateBlocks (term : Option Error) :
    Nat → BitReader → List Byte → Except Error (List Byte × List Byte)
  | 0, _, _ => .error Error.flateCorrupt
  | fuel + 1, r, hist =>
    let eofErr := noEOF (term.getD Error.eof)
    match r.readBits 3 with
    | none => .error eofErr
    | some (x, r1) =>
      let final := x &&& 1 = 1
      let typ := (x >>> 1) &&& 3
      let res : Except Error (BitReader × List Byte) :=
        if typ = 0 then dataBlock term r1 hist
        else if typ = 1 then huffmanBlock fixedHuffmanDecoder none eofErr (r1.avail + 1) r1 hist
        else if typ = 2 then
          match readHuffman eofErr r1 with
          | .error e => .error e
          | .ok (h1, h2, r2) => huffmanBlock h1 (some h2) eofErr (r2.avail + 1) r2 hist
        else .error Error.flateCorrupt
      match res with
      | .error e => .error e
      | .ok (r2, hist1) =>
        if final then .ok (r2.align, hist1) else inflateBlocks term fuel r2 hist1

/-- Reading a `flate.NewReader` to its end: the bytes after the deflate stream and
the decompressed data. -/
def inflate (term : Option Error) (inp : List Byte) : Except Error (List Byte × List Byte) :=
  match inflateBlocks term (8 * inp.length + 1) ⟨inp, 0⟩ [] with
  | .error e => .error e
  | .ok (rest, hist) => .ok (rest, hist.reverse)

/-! ## `compress/gzip`: reader -/

/-- Go `Reader.readString`: a NUL-terminated header field of at most 511 bytes;
returns the bytes used, NUL included, and the rest. -/
def readString (inp : List Byte) (term : Option Error) : Except Error (List Byte × List Byte) :=
  let s := inp.takeWhile (fun b => b ≠ 0)
  if 512 ≤ s.length then .error Error.gzipHeader
  else if s.length = inp.length then .error (term.getD Error.eof)
  else .ok (inp.take (s.length + 1), inp.drop (s.length + 1))

/-- An optional header field: read with `rd` when the flag bit `bit` is set in
`flg`; `hdr` collects the header bytes for the header checksum. -/
def optField (flg bit : Nat) (rd : List Byte → Except Error (List Byte × List Byte))
    (st : List Byte × List Byte) : Except Error (List Byte × List Byte) :=
  if flg &&& bit ≠ 0 then
    match rd st.2 with
    | .error e => .error (noEOF e)
    | .ok (used, rest) => .ok (st.1 ++ used, rest)
  else .ok st

/-- Go `Reader.readHeader`: check and skip one member header; returns the input
after it. -/
def readHeader (inp : List Byte) (term : Option Error) : Except Error (List Byte) :=
  match readFull 10 inp term with
  | .error e => .error e
  | .ok (buf, rest) =>
    if buf.getD 0 0 ≠ 0x1f ∨ buf.getD 1 0 ≠ 0x8b ∨ buf.getD 2 0 ≠ 8 then .error Error.gzipHeader
    else
      let flg := (buf.getD 3 0).val
      let extra := fun (i : List Byte) =>
        match readFull 2 i term with
        | .error e => .error e
        | .ok (len, r1) =>
          match readFull (le len) r1 term with
          | .error e => .error e
          | .ok (data, r2) => .ok (len ++ data, r2)
      match optField flg 4 extra (buf, rest) with
      | .error e => .error e
      | .ok st1 =>
        match optField flg 8 (fun i => readString i term) st1 with
        | .error e => .error e
        | .ok st2 =>
          match optField flg 16 (fun i => readString i term) st2 with
          | .error e => .error e
          | .ok st3 =>
            if flg &&& 2 ≠ 0 then
              match readFull 2 st3.2 term with
              | .error e => .error (noEOF e)
              | .ok (d, r4) =>
                if le d ≠ checksumIEEE st3.1 % 65536 then .error Error.gzipHeader
                else .ok r4
            else .ok st3.2

/-- A `gzip.Reader` positioned after a member header. -/
structure GzipReader where
  inp : List Byte
  term : Option Error
  deriving DecidableEq, Repr

/-- Go `gzip.NewReader`: reads the first member header. -/
def gzipNewReader (r : Stream) : Except Error GzipReader :=
  match readHeader r.data r.err with
  | .error e => .error e
  | .ok rest => .ok ⟨rest, r.err⟩

/-- The members of a gzip stream, from the position after a header: inflate,
check the trailer (CRC-32 and length), and go on with the next member until
the input ends cleanly at a member boundary.  Every member uses at least one
byte, which bounds the recursion. -/
def gzipMembers (term : Option Error) : Nat → List Byte → List Byte → Except Error (List Byte)
  | 0, _, _ => .error Error.gzipHeader
  | fuel + 1, inp, acc =>
    match inflate term inp with
    | .error e => .error e
    | .ok (rest, data) =>
      match readFull 8 rest term with
      | .error e => .error (noEOF e)
      | .ok (tr, rest1) =>
        if le (tr.take 4) ≠ checksumIEEE data ∨ le (tr.drop 4) ≠ data.length % 4294967296 then
          .error Error.gzipChecksum
        else
          match readHeader rest1 term with
          | .error Error.eof => .ok (acc ++ data)
          | .error e => .error e
          | .ok rest2 => gzipMembers term fuel rest2 (acc ++ data)

/-- Go `ioutil.ReadAll` on a `gzip.Reader`: the decompressed data of all members, or
the error (the data read before an error is not used by the caller). -/
def GzipReader.readAll (z : GzipReader) : Except Error (List Byte) :=
  gzipMembers z.term (z.inp.length + 1) z.inp []


/-! ## `path.Join` -/

/-- An external command as built by `exec.Command(name, arg...)`. -/
structure Cmd where
  path : String
  args : List String
  deriving DecidableEq, Repr

/-- One call `ioutil.WriteFile(filename, data, perm)`. -/
structure FileWrite where
  filename : String
  data : List Byte
  perm : Nat
  deriving DecidableEq, Repr

/-- What the program has done so far: the commands it has run and the calls of
`ioutil.WriteFile` it has made, oldest first. -/
structure State where
  commands : List Cmd
  writes : List FileWrite
  deriving DecidableEq, Repr

/-- The behaviour of everything outside the process.  Each answer may depend on
what has happened before. -/
structure World where
  /-- The call `exec.LookPath(file)`: the resolved path, `none` when it fails. -/
  lookPath : State → String → Option String
  /-- The call `cmd.Output()`: the captured standard output and the error. -/
  output : State → Cmd → List Byte × Option Error
  /-- The result of `ioutil.WriteFile`. -/
  writeFile : State → FileWrite → Option Error

/-- How a call ends: it returns a value, or a run-time panic unwinds it. -/
inductive Outcome (α : Type) where
  | ret (a : α)
  | panic
  deriving DecidableEq, Repr

/-! ## `provider_vmware.go` -/

def guestMetaData : String := "guestinfo.metadata"

def guestUserData : String := "guestinfo.userdata"

/-- ProviderVMware is the type implementing the Provider interface for VMware. -/
structure ProviderVMware where
  cmd : String
  deriving DecidableEq, Repr

/-- NewVMware returns a new ProviderVMware. -/
def NewVMware : ProviderVMware := ⟨""⟩

def ProviderVMware.String (_ : ProviderVMware) : String := "VMWARE"

/-- The closure `cmdArg` of `vmwareGet`. -/
def cmdArg (n : String) : String := "info-get " ++ n

/-- Whether the type assertion `err.(*exec.ExitError)` succeeds. -/
def isExitError : Error → Bool
  | Error.exitError _ => true
  | _ => false

/-- The call `len(b)` on a slice that may be `nil`. -/
def len (b : Option (List Byte)) : Nat := (b.getD []).length

/-- The conversion `string(b)` of a slice that may be `nil`. -/
def string (b : Option (List Byte)) : List Byte := b.getD []

/-- The `switch` of `vmwareGet`: decode the value `out` as told by the output `enc`
of the encoding query. -/
def decode (enc out : List Byte) : Option (List Byte) × Option Error :=
  let tag := trimSuffix enc (str "\n")
  if tag = str " " then (some (trimSuffix out (str "\n")), none)
  else if tag = str "base64" then
    let r := base64Decoder out
    match readAll r with
    | (_, some err) => (none, some err)
    | (dst, none) => (some dst, none)
  else if tag = str "gzip+base64" then
    let r := base64Decoder out
    match gzipNewReader r with
    | .error err => (none, some err)
    | .ok zr =>
      match zr.readAll with
      | .error err => (none, some err)
      | .ok dst => (some dst, none)
  else (none, some (Error.unknownEncoding enc))

/-- The state after one more command has been run. -/
def State.ran (s : State) (c : Cmd) : State := { s with commands := s.commands ++ [c] }

/-- The method vmwareGet gets and extracts the guest data. -/
def vmwareGet (w : World) (p : ProviderVMware) (name : String) (s : State) :
    Outcome (Option (List Byte) × Option Error) × State :=
  let c1 : Cmd := ⟨p.cmd, [cmdArg name]⟩
  let s1 := s.ran c1
  match w.output s c1 with
  | (_, some err) =>
    if isExitError err then (Outcome.ret (none, some err), s1) else (Outcome.panic, s1)
  | (out, none) =>
    let c2 : Cmd := ⟨p.cmd, [cmdArg (name ++ ".encoding")]⟩
    let s2 := s1.ran c2
    match w.output s1 c2 with
    | (_, some err) =>
      if isExitError err then (Outcome.ret (none, some err), s2) else (Outcome.panic, s2)
    | (enc, none) => (Outcome.ret (decode enc out), s2)

/-- Probe checks if we are running on VMware. -/
def Probe (w : World) (p : ProviderVMware) (s : State) : Outcome Bool × ProviderVMware × State :=
  match w.lookPath s "vmware-rpctool" with
  | none => (Outcome.ret false, p, s)
  | some c =>
    let p1 : ProviderVMware := { p with cmd := c }
    match vmwareGet w p1 guestUserData s with
    | (Outcome.panic, s1) => (Outcome.panic, p1, s1)
    | (Outcome.ret (b, err), s1) =>
      (Outcome.ret (decide (err = none) && decide (len b > 0) && decide (string b ≠ str " ")
        && decide (string b ≠ str "---")), p1, s1)

/-- The resolved path of the helper used in the examples. -/
def rpctool : String := "/usr/bin/vmware-rpctool"

/-- A world in which the helper is installed and answers every query of a key
with `value` and every query of an encoding with `tag`; writing files
succeeds. -/
def helperWorld (value tag : List Byte) : World where
  lookPath := fun _ file => if file = "vmware-rpctool" then some rpctool else none
  output := fun _ c =>
    if c = ⟨rpctool, [cmdArg guestMetaData]⟩ ∨ c = ⟨rpctool, [cmdArg guestUserData]⟩ then
      (value, none)
    else (tag, none)
  writeFile := fun _ _ => none

/-- A world in which the helper is found on the search path but cannot be
started any more: `Output` fails with an error that is not an `*exec.ExitError`. -/
def launchFailWorld : World where
  lookPath := fun _ file => if file = "vmware-rpctool" then some rpctool else none
  output := fun _ _ =>
    ([], some (Error.sys "fork/exec /usr/bin/vmware-rpctool: no such file or directory"))
  writeFile := fun _ _ => none

/-- The state of a process that has not done anything yet. -/
def State.init : State := ⟨[], []⟩


/-- The provider after a successful lookup of the helper. -/
def probed : ProviderVMware := ⟨rpctool⟩

theorem trimSuffix_append (x suffix : List Byte) : trimSuffix (x ++ suffix) suffix = x := by
  simp [trimSuffix]

theorem trimSuffix_newline_of_not_suffix (x : List Byte) (h : x.getLast? ≠ some 10) :
    trimSuffix x (str "\n") = x := by
  unfold trimSuffix
  rw [if_neg]
  intro hs
  rw [List.isSuffixOf_iff_suffix] at hs
  obtain ⟨t, rfl⟩ := hs
  apply h
  simp [str, byte]

/-! ### The three ways through `vmwareGet` -/

theorem vmwareGet_first_failed (w : World) (p : ProviderVMware) (name : String) (s : State)
    (out : List Byte) (e : Error)
    (h1 : w.output s ⟨p.cmd, [cmdArg name]⟩ = (out, some e)) :
    vmwareGet w p name s =
      (if isExitError e then Outcome.ret (none, some e) else Outcome.panic,
        s.ran ⟨p.cmd, [cmdArg name]⟩) := by
  simp only [vmwareGet, h1]
  split <;> rfl

theorem vmwareGet_both_ran (w : World) (p : ProviderVMware) (name : String) (s : State)
    (out enc : List Byte)
    (h1 : w.output s ⟨p.cmd, [cmdArg name]⟩ = (out, none))
    (h2 : w.output (s.ran ⟨p.cmd, [cmdArg name]⟩) ⟨p.cmd, [cmdArg (name ++ ".encoding")]⟩
      = (enc, none)) :
    vmwareGet w p name s =
      (Outcome.ret (decode enc out),
        (s.ran ⟨p.cmd, [cmdArg name]⟩).ran ⟨p.cmd, [cmdArg (name ++ ".encoding")]⟩) := by
  simp only [vmwareGet, h1, h2]

/-- The type assertion of `vmwareGet` panics on every error of the first command
that is not an `*exec.ExitError`. -/
theorem vmwareGet_panics (w : World) (p : ProviderVMware) (name : String) (s : State)
    (out : List Byte) (e : Error)
    (h1 : w.output s ⟨p.cmd, [cmdArg name]⟩ = (out, some e)) (he : isExitError e = false) :
    (vmwareGet w p name s).1 = Outcome.panic := by
  rw [vmwareGet_first_failed w p name s out e h1]
  simp [he]

/-! ### Probe -/

/-- The boolean computed by the last line of `Probe`. -/
theorem probe_condition (b : Option (List Byte)) (err : Option Error) :
    (decide (err = none) && decide (len b > 0) && decide (string b ≠ str " ")
        && decide (string b ≠ str "---")) = true ↔
      err = none ∧ string b ≠ [] ∧ string b ≠ str " " ∧ string b ≠ str "---" := by
  simp [len, string, List.length_pos, and_assoc]

/-- C1: `Probe` returns `true` exactly when the helper binary was found,
`vmwareGet("guestinfo.userdata")` returned no error and the payload is not empty,
not `" "` and not `"---"`; it returns `false` exactly when the binary was not
found or `vmwareGet` returned and one of these conditions fails.  In particular
it returns `false` when the binary is not found, and when the helper answers the
userdata query with `"---\n"` and the encoding query with `" \n"`. -/
theorem Probe_true_iff (w : World) (p : ProviderVMware) (s : State) :
    ((Probe w p s).1 = Outcome.ret true ↔
      ∃ c b s1, w.lookPath s "vmware-rpctool" = some c ∧
        vmwareGet w ⟨c⟩ guestUserData s = (Outcome.ret (b, none), s1) ∧
        string b ≠ [] ∧ string b ≠ str " " ∧ string b ≠ str "---") ∧
    ((Probe w p s).1 = Outcome.ret false ↔
      w.lookPath s "vmware-rpctool" = none ∨
      ∃ c b err s1, w.lookPath s "vmware-rpctool" = some c ∧
        vmwareGet w ⟨c⟩ guestUserData s = (Outcome.ret (b, err), s1) ∧
        ¬ (err = none ∧ string b ≠ [] ∧ string b ≠ str " " ∧ string b ≠ str "---")) ∧
    (w.lookPath s "vmware-rpctool" = none → (Probe w p s).1 = Outcome.ret false) ∧
    (∀ c, w.lookPath s "vmware-rpctool" = some c →
      w.output s ⟨c, [cmdArg guestUserData]⟩ = (str "---\n", none) →
      w.output (s.ran ⟨c, [cmdArg guestUserData]⟩)
        ⟨c, [cmdArg (guestUserData ++ ".encoding")]⟩ = (str " \n", none) →
      (Probe w p s).1 = Outcome.ret false) := by
  have key : ∀ c b err s1, w.lookPath s "vmware-rpctool" = some c →
      vmwareGet w ⟨c⟩ guestUserData s = (Outcome.ret (b, err), s1) →
      (Probe w p s).1 = Outcome.ret (decide (err = none) && decide (len b > 0)
        && decide (string b ≠ str " ") && decide (string b ≠ str "---")) := by
    intro c b err s1 hl hv
    simp only [Probe, hl, hv]
  have keyp : ∀ c s1, w.lookPath s "vmware-rpctool" = some c →
      vmwareGet w ⟨c⟩ guestUserData s = (Outcome.panic, s1) →
      (Probe w p s).1 = Outcome.panic := by
    intro c s1 hl hv
    simp only [Probe, hl, hv]
  have keyn : w.lookPath s "vmware-rpctool" = none → (Probe w p s).1 = Outcome.ret false := by
    intro hl
    simp only [Probe, hl]
  refine ⟨?_, ?_, keyn, ?_⟩
  · constructor
    · intro h
      rcases hl : w.lookPath s "vmware-rpctool" with _ | c
      · rw [keyn hl] at h; simp at h
      · rcases hv : vmwareGet w ⟨c⟩ guestUserData s with ⟨_ | _, s1⟩
        case mk.panic => rw [keyp c s1 hl hv] at h; simp at h
        case mk.ret r =>
          obtain ⟨b, err⟩ := r
          rw [key c b err s1 hl hv] at h
          have h2 := (probe_condition b err).1 (by simpa using h)
          obtain ⟨he, hb⟩ := h2
          subst he
          exact ⟨c, b, s1, rfl, hv, hb⟩
    · rintro ⟨c, b, s1, hl, hv, hb⟩
      rw [key c b none s1 hl hv, (probe_condition b none).2 ⟨rfl, hb⟩]
  · constructor
    · intro h
      rcases hl : w.lookPath s "vmware-rpctool" with _ | c
      · exact Or.inl rfl
      · right
        rcases hv : vmwareGet w ⟨c⟩ guestUserData s with ⟨_ | _, s1⟩
        case mk.panic => rw [keyp c s1 hl hv] at h; simp at h
        case mk.ret r =>
          obtain ⟨b, err⟩ := r
          refine ⟨c, b, err, s1, rfl, hv, ?_⟩
          intro hc
          rw [key c b err s1 hl hv, (probe_condition b err).2 hc] at h
          simp at h
    · rintro (hl | ⟨c, b, err, s1, hl, hv, hc⟩)
      · exact keyn hl
      · rw [key c b err s1 hl hv]
        rw [← probe_condition] at hc
        simpa using hc
  · intro c hl h1 h2
    have hv := vmwareGet_both_ran w ⟨c⟩ guestUserData s _ _ h1 h2
    rw [key c _ _ _ hl hv]
    decide

/-- C1, at two worlds.  In the first the helper is installed and answers `"---\n"`
with encoding `" \n"`: `Probe` returns `false`.  In the second it answers
`"hostname: vm1\n"` with encoding `" \n"`: `Probe` returns `true`. -/
theorem Probe_true_iff_witness :
    ((helperWorld (str "---\n") (str " \n")).lookPath State.init "vmware-rpctool" = some rpctool ∧
      (helperWorld (str "---\n") (str " \n")).output State.init ⟨rpctool, [cmdArg guestUserData]⟩
        = (str "---\n", none) ∧
      (helperWorld (str "---\n") (str " \n")).output
          (State.init.ran ⟨rpctool, [cmdArg guestUserData]⟩)
          ⟨rpctool, [cmdArg (guestUserData ++ ".encoding")]⟩
        = (str " \n", none) ∧
      (Probe (helperWorld (str "---\n") (str " \n")) NewVMware State.init).1
        = Outcome.ret false) ∧
    (Probe (helperWorld (str "hostname: vm1\n") (str " \n")) NewVMware State.init).1
      = Outcome.ret true :=
  ⟨⟨rfl, by decide, by decide,
    (Probe_true_iff (helperWorld (str "---\n") (str " \n")) NewVMware State.init).2.2.2
      rpctool rfl (by decide) (by decide)⟩,
    (Probe_true_iff (helperWorld (str "hostname: vm1\n") (str " \n")) NewVMware State.init).1.2
      ⟨rpctool, some (str "hostname: vm1"),
        ⟨[⟨rpctool, [cmdArg guestUserData]⟩,
          ⟨rpctool, [cmdArg (guestUserData ++ ".encoding")]⟩], []⟩,
        rfl, by decide, by decide, by decide, by decide⟩⟩

/-- C2, the failing run: the helper is found on the search path, but starting it
fails with an error that is not an `*exec.ExitError`; the type assertion in
`vmwareGet` panics and `Probe` does not return. -/
theorem Probe_panics_on_launch_failure :
    (Probe launchFailWorld NewVMware State.init).1 = Outcome.panic ∧
    (Probe launchFailWorld NewVMware State.init).1 ≠ Outcome.ret false := by
  decide


/-! ### Extract -/

/-- With the single-space tag the result is the raw value without one trailing
newline. -/
theorem decode_space (enc out : List Byte) (h : trimSuffix enc (str "\n") = str " ") :
    decode enc out = (some (trimSuffix out (str "\n")), none) := by
  simp only [decode, h, if_true]

/-- C8: when the encoding tag is the single space, decoding never fails and
returns the raw value without one trailing newline: for `X` not ending in a
newline, `X ++ "\n"` and `X` both decode to `X`, the empty value decodes to the
empty result and `X ++ "\n\n"` decodes to `X ++ "\n"`. -/
theorem decode_blank (enc : List Byte) (h : trimSuffix enc (str "\n") = str " ") :
    (∀ out, decode enc out = (some (trimSuffix out (str "\n")), none)) ∧
    (∀ X : List Byte, X.getLast? ≠ some 10 →
      decode enc (X ++ str "\n") = (some X, none) ∧
      decode enc X = (some X, none) ∧
      decode enc (X ++ str "\n\n") = (some (X ++ str "\n"), none)) ∧
    decode enc [] = (some [], none) := by
  have h1 : ∀ out, decode enc out = (some (trimSuffix out (str "\n")), none) :=
    fun out => decode_space enc out h
  refine ⟨h1, ?_, ?_⟩
  · intro X hX
    refine ⟨?_, ?_, ?_⟩
    · rw [h1, trimSuffix_append]
    · rw [h1, trimSuffix_newline_of_not_suffix X hX]
    · have : X ++ str "\n\n" = (X ++ str "\n") ++ str "\n" := by
        rw [List.append_assoc]; rfl
      rw [h1, this, trimSuffix_append]
  · rw [h1]; rfl

/-- C8, at the tag output `" \n"` and the value `"---"`. -/
theorem decode_blank_witness :
    trimSuffix (str " \n") (str "\n") = str " " ∧
    (str "---").getLast? ≠ some 10 ∧
    decode (str " \n") (str "---\n") = (some (str "---"), none) ∧
    decode (str " \n") (str "---") = (some (str "---"), none) ∧
    decode (str " \n") (str "---\n\n") = (some (str "---\n"), none) :=
  ⟨by decide, by decide,
    ((decode_blank (str " \n") (by decide)).2.1 (str "---") (by decide))⟩

/-- C9: when the output of the encoding query, without one trailing newline, is
none of `""`, `" "`, `"base64"` and `"gzip+base64"`, decoding returns no payload
and the unknown-encoding error, for every raw value.  (The proof does not use
the first exclusion.) -/
theorem decode_unknown (enc out : List Byte)
    (_h0 : trimSuffix enc (str "\n") ≠ str "")
    (h1 : trimSuffix enc (str "\n") ≠ str " ")
    (h2 : trimSuffix enc (str "\n") ≠ str "base64")
    (h3 : trimSuffix enc (str "\n") ≠ str "gzip+base64") :
    decode enc out = (none, some (Error.unknownEncoding enc)) := by
  simp only [decode, h1, h2, h3, if_false]

/-- C9, at the tag output `"gzip\n"`. -/
theorem decode_unknown_witness :
    trimSuffix (str "gzip\n") (str "\n") ≠ str "" ∧
    trimSuffix (str "gzip\n") (str "\n") ≠ str " " ∧
    trimSuffix (str "gzip\n") (str "\n") ≠ str "base64" ∧
    trimSuffix (str "gzip\n") (str "\n") ≠ str "gzip+base64" ∧
    decode (str "gzip\n") (str "H4sIAAAA") = (none, some (Error.unknownEncoding (str "gzip\n"))) :=
  ⟨by decide, by decide, by decide, by decide,
    decode_unknown (str "gzip\n") (str "H4sIAAAA") (by decide) (by decide) (by decide)
      (by decide)⟩

/-- C10, refuted: with the empty tag (tag output `""` or `"\n"`) the value `"x"` is
not decoded but rejected with the unknown-encoding error, while with the tag
`" "` it decodes to `"x"`. -/
theorem decode_empty_tag_counterexample :
    decode (str "") (str "x") = (none, some (Error.unknownEncoding (str ""))) ∧
    decode (str "\n") (str "x") = (none, some (Error.unknownEncoding (str "\n"))) ∧
    decode (str " ") (str "x") = (some (str "x"), none) ∧
    ¬ (∀ out, decode (str "") out = decode (str " ") out) := by
  refine ⟨by decide, by decide, by decide, ?_⟩
  intro h
  exact absurd (h (str "x")) (by decide)

/-- C10, as amended: the empty encoding tag is not recognised.  When the output
of the encoding query is empty once a trailing newline is removed, decoding
returns no payload and the unknown-encoding error for every raw value; this
differs from the result for the tag `" "`, which is never an error. -/
theorem decode_empty_tag (enc out : List Byte) (h : trimSuffix enc (str "\n") = str "") :
    decode enc out = (none, some (Error.unknownEncoding enc)) ∧
    decode enc out ≠ decode (str " ") out := by
  have hd : decode enc out = (none, some (Error.unknownEncoding enc)) := by
    have e1 : str "" ≠ str " " := by decide
    have e2 : str "" ≠ str "base64" := by decide
    have e3 : str "" ≠ str "gzip+base64" := by decide
    simp only [decode, h, e1, e2, e3, if_false]
  refine ⟨hd, ?_⟩
  rw [hd, decode_space (str " ") out (by decide)]
  simp

/-- C10 as amended, at the tag output `"\n"`. -/
theorem decode_empty_tag_witness :
    trimSuffix (str "\n") (str "\n") = str "" ∧
    decode (str "\n") (str "---\n") = (none, some (Error.unknownEncoding (str "\n"))) :=
  ⟨by decide, (decode_empty_tag (str "\n") (str "---\n") (by decide)).1⟩


/-! ### Base64 -/

theorem shiftLeft_or_eq_add (a b i : Nat) (h : b < 2 ^ i) : a <<< i ||| b = a * 2 ^ i + b := by
  rw [Nat.shiftLeft_eq, Nat.mul_comm, ← Nat.mul_add_lt_is_or h]

/-- On six-bit values the shifts and ors of `decodeQuantum` are a sum. -/
theorem quantumVal_eq (x y z t : Nat) (hy : y < 64) (hz : z < 64) (ht : t < 64) :
    quantumVal x y z t = x * 262144 + y * 4096 + z * 64 + t := by
  unfold quantumVal
  rw [Nat.or_assoc, Nat.or_assoc]
  rw [shiftLeft_or_eq_add z t 6 (by omega)]
  rw [shiftLeft_or_eq_add y (z * 2 ^ 6 + t) 12 (by omega)]
  rw [shiftLeft_or_eq_add x (y * 2 ^ 12 + (z * 2 ^ 6 + t)) 18 (by omega)]
  omega

theorem decodeMap_encodeChar (i : Nat) (h : i < 64) : decodeMap (encodeChar i) = some i := by
  interval_cases i <;> rfl

theorem isNewline_encodeChar (i : Nat) (h : i < 64) : isNewline (encodeChar i) = false := by
  interval_cases i <;> rfl

theorem decodeMap_padChar : decodeMap padChar = none := by decide

theorem byte_eq (n : Nat) (a : Byte) (h : n % 256 = a.val) : byte n = a :=
  Fin.ext h

/-- Every character of an encoding belongs to the alphabet or is the padding:
none is a newline. -/
theorem base64Encode_no_newline (X : List Byte) :
    ∀ b ∈ base64Encode X, isNewline b = false := by
  induction X using base64Encode.induct with
  | case1 a b c rest ih =>
    intro x hx
    simp only [base64Encode, List.mem_cons] at hx
    rcases hx with rfl | rfl | rfl | rfl | hx
    · exact isNewline_encodeChar _ (Nat.mod_lt _ (by decide))
    · exact isNewline_encodeChar _ (Nat.mod_lt _ (by decide))
    · exact isNewline_encodeChar _ (Nat.mod_lt _ (by decide))
    · exact isNewline_encodeChar _ (Nat.mod_lt _ (by decide))
    · exact ih x hx
  | case2 a b =>
    intro x hx
    simp only [base64Encode, List.mem_cons, List.mem_singleton, List.not_mem_nil, or_false] at hx
    rcases hx with rfl | rfl | rfl | rfl
    · exact isNewline_encodeChar _ (Nat.mod_lt _ (by decide))
    · exact isNewline_encodeChar _ (Nat.mod_lt _ (by decide))
    · exact isNewline_encodeChar _ (Nat.mod_lt _ (by decide))
    · rfl
  | case3 a =>
    intro x hx
    simp only [base64Encode, List.mem_cons, List.mem_singleton, List.not_mem_nil, or_false] at hx
    rcases hx with rfl | rfl | rfl | rfl
    · exact isNewline_encodeChar _ (Nat.mod_lt _ (by decide))
    · exact isNewline_encodeChar _ (Nat.mod_lt _ (by decide))
    · rfl
    · rfl
  | case4 => simp [base64Encode]

/-- An encoding is made of whole four-character groups. -/
theorem base64Encode_length (X : List Byte) : (base64Encode X).length % 4 = 0 := by
  induction X using base64Encode.induct with
  | case1 a b c rest ih =>
    simp only [base64Encode, List.length_cons]
    omega
  | case2 a b => simp [base64Encode]
  | case3 a => simp [base64Encode]
  | case4 => simp [base64Encode]

/-- The decoding loop inverts the encoder. -/
theorem decodeQuanta_base64Encode (X : List Byte) :
    decodeQuanta (base64Encode X) = (X, none) := by
  induction X using base64Encode.induct with
  | case1 a b c rest ih =>
    have ha := a.isLt
    have hb := b.isLt
    have hc := c.isLt
    simp only [base64Encode, decodeQuanta]
    rw [decodeMap_encodeChar _ (Nat.mod_lt _ (by decide)),
      decodeMap_encodeChar _ (Nat.mod_lt _ (by decide))]
    simp only []
    rw [decodeMap_encodeChar _ (Nat.mod_lt _ (by decide))]
    simp only []
    rw [decodeMap_encodeChar _ (Nat.mod_lt _ (by decide))]
    simp only []
    rw [ih, quantumVal_eq _ _ _ _ (Nat.mod_lt _ (by decide)) (Nat.mod_lt _ (by decide))
      (Nat.mod_lt _ (by decide))]
    simp only [Nat.shiftRight_eq_div_pow]
    rw [byte_eq _ a (by omega), byte_eq _ b (by omega), byte_eq _ c (by omega)]
  | case2 a b =>
    have ha := a.isLt
    have hb := b.isLt
    simp only [base64Encode, decodeQuanta]
    rw [decodeMap_encodeChar _ (Nat.mod_lt _ (by decide)),
      decodeMap_encodeChar _ (Nat.mod_lt _ (by decide))]
    simp only []
    rw [decodeMap_encodeChar _ (Nat.mod_lt _ (by decide))]
    simp only [decodeMap_padChar]
    rw [quantumVal_eq _ _ _ _ (Nat.mod_lt _ (by decide)) (Nat.mod_lt _ (by decide))
      (by decide)]
    simp only [Nat.shiftRight_eq_div_pow]
    rw [byte_eq _ a (by omega), byte_eq _ b (by omega)]
    simp
  | case3 a =>
    have ha := a.isLt
    simp only [base64Encode, decodeQuanta]
    rw [decodeMap_encodeChar _ (Nat.mod_lt _ (by decide)),
      decodeMap_encodeChar _ (Nat.mod_lt _ (by decide))]
    simp only [decodeMap_padChar]
    rw [quantumVal_eq _ _ _ _ (Nat.mod_lt _ (by decide)) (by decide) (by decide)]
    simp only [Nat.shiftRight_eq_div_pow]
    rw [byte_eq _ a (by omega)]
    simp
  | case4 => simp [base64Encode, decodeQuanta]


/-! ### Gzip: the reader accepts what the stored writer produces -/

/-- The base64 reader delivers `X` on the encoding of `X`, also when a newline
follows it. -/
theorem base64Decoder_encode (X : List Byte) :
    base64Decoder (base64Encode X) = ⟨X, none⟩ ∧
    base64Decoder (base64Encode X ++ str "\n") = ⟨X, none⟩ := by
  have hf : (base64Encode X).filter (fun b => !isNewline b) = base64Encode X := by
    rw [List.filter_eq_self]
    intro b hb
    simp [base64Encode_no_newline X b hb]
  have hf2 : (base64Encode X ++ str "\n").filter (fun b => !isNewline b) = base64Encode X := by
    rw [List.filter_append, hf]
    have : (str "\n").filter (fun b => !isNewline b) = [] := by decide
    rw [this, List.append_nil]
  have hl := base64Encode_length X
  have hnr : (base64Encode X).length / 4 * 4 = (base64Encode X).length := by omega
  have main : ∀ src, src.filter (fun b => !isNewline b) = base64Encode X →
      base64Decoder src = ⟨X, none⟩ := by
    intro src hsrc
    simp only [base64Decoder, hsrc, hnr, List.take_length, decodeQuanta_base64Encode,
      Nat.lt_irrefl, if_false]
  exact ⟨main _ hf, main _ hf2⟩

theorem helperWorld_userData (value tag : List Byte) :
    (vmwareGet (helperWorld value tag) probed guestUserData State.init).1 =
      Outcome.ret (decode tag value) := by
  rw [vmwareGet_both_ran (helperWorld value tag) probed guestUserData State.init value tag
    (by simp [helperWorld, probed])
    (by
      simp only [helperWorld, probed]
      rw [if_neg]
      intro h
      rcases h with h | h <;> exact absurd h (by decide))]

/-- C6: decoding with the tag `base64` the standard padded base64 encoding of any
byte sequence `X` returns `X` and no error, whether or not the tag output and the
raw value end with the newline added by the helper; so does `vmwareGet` when the
helper prints them.  The value `"aGVsbG8=\n"` with tag output `"base64\n"`
decodes to `"hello"`. -/
theorem decode_base64_roundtrip (X : List Byte) :
    decode (str "base64") (base64Encode X) = (some X, none) ∧
    decode (str "base64\n") (base64Encode X) = (some X, none) ∧
    decode (str "base64") (base64Encode X ++ str "\n") = (some X, none) ∧
    decode (str "base64\n") (base64Encode X ++ str "\n") = (some X, none) ∧
    (vmwareGet (helperWorld (base64Encode X ++ str "\n") (str "base64\n")) probed
      guestUserData State.init).1 = Outcome.ret (some X, none) ∧
    base64Encode (str "hello") = str "aGVsbG8=" ∧
    decode (str "base64\n") (str "aGVsbG8=\n") = (some (str "hello"), none) := by
  have t1 : trimSuffix (str "base64") (str "\n") = str "base64" := by decide
  have t2 : trimSuffix (str "base64\n") (str "\n") = str "base64" := by decide
  have n1 : str "base64" ≠ str " " := by decide
  obtain ⟨h1, h2⟩ := base64Decoder_encode X
  have d1 : decode (str "base64") (base64Encode X) = (some X, none) := by
    simp only [decode, t1, n1, if_false, if_true, h1, readAll]
  have d2 : decode (str "base64\n") (base64Encode X) = (some X, none) := by
    simp only [decode, t2, n1, if_false, if_true, h1, readAll]
  have d3 : decode (str "base64") (base64Encode X ++ str "\n") = (some X, none) := by
    simp only [decode, t1, n1, if_false, if_true, h2, readAll]
  have d4 : decode (str "base64\n") (base64Encode X ++ str "\n") = (some X, none) := by
    simp only [decode, t2, n1, if_false, if_true, h2, readAll]
  refine ⟨d1, d2, d3, d4, ?_, by decide, by decide⟩
  rw [helperWorld_userData, d4]

end Metadata
